import Mathlib

/-!
Verification development for the `dataclass_meta_argparse` repository.

The file shallowly embeds the reproducible core of the library:

* `default_envize_string` from `src/dataclass_meta_argparse/str_utils.py`
  (the string normalizer turning option labels into environment-variable
  tokens);
* the option registry / parser builder loop from
  `src/dataclass_meta_argparse/decorator.py` (registration of each field's
  argument specifications on an `argparse.ArgumentParser`, with argparse's
  conflicting-option-strings check);
* the environment overlay `_extra_args_from_env` /
  `ArgsFromEnv.args_from_env` from `src/dataclass_meta_argparse/decorator.py`
  and `src/dataclass_meta_argparse/plugins/args_from_env.py`;
* the two `from_args` entry points: the decorator-produced one (argv
  defaulting, env overlay only when argv is omitted) and the `ArgsFromEnv`
  plugin one (env-derived tokens always prepended to the given argv).

The `argparse` behaviour the library relies on (token parsing with
last-occurrence-wins stores, defaults seeding, duplicate-option error in
`add_argument`) is modelled for the fragment the library exercises:
zero-arity (store_true-like) actions and single-value options.  Environment
access (`os.environ`) is modelled as an explicit association list, keeping
Python's dict iteration-order semantics.
-/

deriving instance DecidableEq for Except

namespace DMA

/-! ## String normalizer: `default_envize_string` (str_utils.py) -/

/-- Characters matched by the regex class `[a-zA-Z0-9]` used in
`default_envize_string`: ASCII digits and letters. -/
def isAsciiAlnum (c : Char) : Bool :=
  (48 ≤ c.toNat && c.toNat ≤ 57) || (65 ≤ c.toNat && c.toNat ≤ 90) ||
    (97 ≤ c.toNat && c.toNat ≤ 122)

/-- One pass of `re.sub(r'[^a-zA-Z0-9]+', '_', s)`: every maximal run of
non-alphanumeric characters becomes a single underscore.  The Bool flag
records whether we are inside a non-alphanumeric run whose underscore was
already emitted. -/
def subNonAlnum : Bool → List Char → List Char
  | _, [] => []
  | inRun, c :: cs =>
    if isAsciiAlnum c then c :: subNonAlnum false cs
    else if inRun then subNonAlnum true cs
    else '_' :: subNonAlnum true cs

/-- Python `str.strip('_')`: drop leading and trailing underscores. -/
def stripUnderscores (l : List Char) : List Char :=
  ((l.dropWhile (fun c => c == '_')).reverse.dropWhile (fun c => c == '_')).reverse

/-- The `subbed` intermediate of `default_envize_string`:
`re.sub(r'[^a-zA-Z0-9]+', '_', s).strip('_')`. -/
def envizeSubbed (s : String) : List Char :=
  stripUnderscores (subNonAlnum false s.data)

/-- Python `str.upper()` on the output of `envizeSubbed`.  That output only
contains ASCII alphanumerics and underscores, on which Python's `upper`
agrees with mapping `Char.toUpper` (uppercase exactly the letters a-z). -/
def upperChars (l : List Char) : List Char := l.map Char.toUpper

/-- The `keep_case` parameter of `default_envize_string`: either a boolean
or a predicate on the normalized token
(`Union[bool, Callable[[str], bool]]`). -/
inductive KeepCase
  | bool (b : Bool)
  | pred (f : List Char → Bool)

/-- The test `keep_case is True or callable(keep_case) and keep_case(subbed)`
from `default_envize_string`. -/
def keepCaseApplies : KeepCase → List Char → Bool
  | .bool b, _ => b
  | .pred f, subbed => f subbed

/-- `default_envize_string` with an explicit `keep_case` argument:
normalize, strip underscores, then uppercase unless the case policy says to
keep the original case. -/
def envizeWith (kc : KeepCase) (s : String) : String :=
  let subbed := envizeSubbed s
  if keepCaseApplies kc subbed then String.mk subbed else String.mk (upperChars subbed)

/-- The default `keep_case` policy: `lambda s: len(s) == 1`. -/
def defaultKeepCase : KeepCase := .pred (fun subbed => subbed.length == 1)

/-- `default_envize_string` from `str_utils.py` at its default `keep_case`
policy, as used by the decorator and the `ArgsFromEnv` plugin. -/
def default_envize_string (s : String) : String := envizeWith defaultKeepCase s

example : default_envize_string "--verbose" = "VERBOSE" := by decide
example : default_envize_string "-v" = "v" := by decide
example : default_envize_string "--count" = "COUNT" := by decide
example : default_envize_string "my-cli" = "MY_CLI" := by decide
example : default_envize_string "---" = "" := by decide
example : default_envize_string "a--b" = "A_B" := by decide

/-! ## Python dict as an association list

Python dicts preserve insertion order; assigning to an existing key
replaces its value in place.  `dinsert`/`dlookup` model exactly that. -/

/-- Python `s.startswith(p)` on character lists. -/
def charsStartWith : List Char → List Char → Bool
  | _, [] => true
  | [], _ :: _ => false
  | c :: cs, p :: ps => c == p && charsStartWith cs ps

/-- Python `s.startswith(p)`. -/
def strStartsWith (s p : String) : Bool := charsStartWith s.data p.data

/-- Python slicing `s[n:]` (by code point, as Python indexes strings). -/
def strDropChars (s : String) (n : Nat) : String := String.mk (s.data.drop n)

/-- Python `int(ds)` on an unsigned digit string; `none` when some
character is not a decimal digit or the string is empty. -/
def digitsToNat : List Char → Option Nat
  | [] => none
  | ds => ds.foldlM
      (fun acc c =>
        if (48 ≤ c.toNat && c.toNat ≤ 57) then some (acc * 10 + (c.toNat - 48)) else none)
      0

/-- Python `int(s)` for the optionally signed decimal strings the argparse
`type=int` converter receives in the spec's scenarios. -/
def parsePyInt (s : String) : Option Int :=
  match s.data with
  | '-' :: ds => (digitsToNat ds).map (fun n => -(n : Int))
  | '+' :: ds => (digitsToNat ds).map (fun n => (n : Int))
  | ds => (digitsToNat ds).map (fun n => (n : Int))

/-- Python dict update `d[k] = v`: replace in place when the key exists,
otherwise append at the end. -/
def dinsert {α : Type} : List (String × α) → String → α → List (String × α)
  | [], k, v => [(k, v)]
  | (k0, v0) :: rest, k, v =>
    if k0 == k then (k, v) :: rest else (k0, v0) :: dinsert rest k v

/-- Python dict lookup `d[k]` / `d.get(k)`: first (and, under `dinsert`
discipline, only) binding of the key. -/
def dlookup {α : Type} : List (String × α) → String → Option α
  | [], _ => none
  | (k0, v0) :: rest, k => if k0 == k then some v0 else dlookup rest k

/-! ## argparse fragment: actions, parser, registration -/

/-- The `nargs` parameter of an argparse action.  `noneN` is Python `None`
(exactly one consumed value), `num n` is an integer arity, and the three
symbolic arities are the strings `"?"`, `"*"`, `"+"`. -/
inductive Nargs
  | noneN
  | num (n : Nat)
  | qmark
  | star
  | plus
deriving DecidableEq

/-- Truthiness test `action.nargs is None or action.nargs` used by the
environment overlay to decide whether to emit the variable's value after
the flag: Python `None` passes the first disjunct, `0` is falsy, every
other arity (positive int or non-empty string) is truthy. -/
def Nargs.emitsValue : Nargs → Bool
  | .noneN => true
  | .num 0 => false
  | .num (_ + 1) => true
  | .qmark => true
  | .star => true
  | .plus => true

/-- The `type=` converter of an action, for the converters the repository's
examples use: the identity `str` and `int`. -/
inductive ArgType
  | tStr
  | tInt
deriving DecidableEq

/-- A runtime value held in the parsed namespace.  `vNone` is Python
`None` (the default default), `vBool` covers store_true/store_false
constants. -/
inductive Value
  | vNone
  | vBool (b : Bool)
  | vInt (z : Int)
  | vStr (s : String)
deriving DecidableEq

/-- Applying an action's `type=` converter to a consumed token, as argparse
does at parse time; an unconvertible token is an argument error. -/
def convertValue : ArgType → String → Except String Value
  | .tStr, s => .ok (.vStr s)
  | .tInt, s =>
    match parsePyInt s with
    | some z => .ok (.vInt z)
    | none => .error ("argument error: invalid int value: " ++ s)

/-- An argparse `Action` as registered on the parser: its option strings,
destination, arity, converter, constant (for zero-arity stores), default,
and whether its default is `SUPPRESS` (the help action), in which case it
is not seeded into the namespace. -/
structure ArgAction where
  optionStrings : List String
  dest : String
  nargs : Nargs
  argType : ArgType
  constVal : Value
  defaultVal : Value
  suppress : Bool
deriving DecidableEq

/-- An `argparse_argument` from `metadata.py`: the saved `add_argument`
parameters, detached from any parser and carrying no destination — the
destination is supplied at registration time from the owning field's name. -/
structure ArgSpec where
  optionStrings : List String
  nargs : Nargs
  argType : ArgType
  constVal : Value
  defaultVal : Value
deriving DecidableEq

/-- Attaching the owning dataclass field's name as `dest`, as in
`add_arg_fn(argument_parser, dest=field.name)`. -/
def ArgSpec.toAction (spec : ArgSpec) (destName : String) : ArgAction :=
  { optionStrings := spec.optionStrings
    dest := destName
    nargs := spec.nargs
    argType := spec.argType
    constVal := spec.constVal
    defaultVal := spec.defaultVal
    suppress := false }

/-- A dataclass field declaration: its name together with the list of
`argparse_argument`s stored under the `ARGS` metadata key. -/
structure FieldDecl where
  name : String
  args : List ArgSpec

/-- An `argparse.ArgumentParser`: its program name, the
`_option_string_actions` dict mapping each flag string to its action, and
the registered actions in registration order (`_actions`). -/
structure Parser where
  prog : String
  optionStringActions : List (String × ArgAction)
  actions : List ArgAction
deriving DecidableEq

/-- Build-time configuration error: argparse's
`ArgumentError: conflicting option strings` raised by `add_argument` when
a flag string is already registered, recording the new action's option
strings and the conflicting flags. -/
inductive ConfigError
  | conflictingOptionStrings (newOptionStrings : List String) (conflicts : List String)
deriving DecidableEq

/-- `ArgumentParser.add_argument` for optionals under the default
`conflict_handler='error'`: if any option string is already registered the
whole call fails naming the conflicting strings, otherwise the action is
appended and each of its option strings is bound in
`_option_string_actions`. -/
def addArgument (p : Parser) (a : ArgAction) : Except ConfigError Parser :=
  let conflicts := a.optionStrings.filter (fun s => (dlookup p.optionStringActions s).isSome)
  if conflicts.isEmpty then
    .ok { p with
          actions := p.actions ++ [a]
          optionStringActions :=
            a.optionStrings.foldl (fun d s => dinsert d s a) p.optionStringActions }
  else
    .error (.conflictingOptionStrings a.optionStrings conflicts)

/-- The help action argparse installs at parser construction
(`add_help=True`, the decorator's default): flags `-h`/`--help`,
zero arity, default `SUPPRESS`. -/
def helpAction : ArgAction :=
  { optionStrings := ["-h", "--help"]
    dest := "help"
    nargs := .num 0
    argType := .tStr
    constVal := .vBool true
    defaultVal := .vNone
    suppress := true }

/-- A freshly constructed `ArgumentParser(prog=...)`, holding only the
help action. -/
def mkArgumentParser (progName : String) : Parser :=
  { prog := progName
    optionStringActions := [("-h", helpAction), ("--help", helpAction)]
    actions := [helpAction] }

/-- The registration loop run at record-type definition time by the
decorator: for each field in declaration order, for each of its
argument specifications in order, register it on the parser with the
field's name as destination.  A duplicate flag makes the whole build fail
eagerly, before any parse can be attempted. -/
def buildParser (progName : String) (fieldsL : List FieldDecl) : Except ConfigError Parser :=
  fieldsL.foldlM
    (fun p fd => fd.args.foldlM (fun p' spec => addArgument p' (spec.toAction fd.name)) p)
    (mkArgumentParser progName)

/-! ## argparse parse_args fragment -/

/-- The `Namespace.__dict__` seeded with every action's default before
parsing, in registration order; actions whose default is `SUPPRESS` (the
help action) are not seeded. -/
def initNamespaceDict (p : Parser) : List (String × Value) :=
  p.actions.foldl
    (fun ns a => if a.suppress then ns else dinsert ns a.dest a.defaultVal) []

/-- The token-consumption loop of `parse_args` for the fragment the
library exercises: each token must be a registered option string; a
zero-arity action stores its constant, a `nargs=None` action consumes and
converts exactly the next token.  Every store overwrites the destination,
so the last occurrence for a destination wins.  Arities the repository
never parses with are reported as argument errors rather than modelled. -/
def parseLoop (p : Parser) : List (String × Value) → List String →
    Except String (List (String × Value))
  | ns, [] => .ok ns
  | ns, tok :: rest =>
    match dlookup p.optionStringActions tok with
    | none => .error ("argument error: unrecognized arguments: " ++ tok)
    | some a =>
      match a.nargs with
      | .num 0 => parseLoop p (dinsert ns a.dest a.constVal) rest
      | .noneN =>
        match rest with
        | [] => .error ("argument error: expected one argument after " ++ tok)
        | v :: rest2 =>
          match convertValue a.argType v with
          | .error e => .error e
          | .ok value => parseLoop p (dinsert ns a.dest value) rest2
      | _ => .error "argument error: nargs variant outside the modelled fragment"

/-- `parser.parse_args(argv)`: seed defaults, then consume the tokens. -/
def parseArgsNs (p : Parser) (argv : List String) : Except String (List (String × Value)) :=
  parseLoop p (initNamespaceDict p) argv

/-! ## Environment overlay (`_extra_args_from_env` / `args_from_env`) -/

/-- The `ValueError` raised for an environment variable whose token after
the prefix matches no registered option: it names the offending variable,
the unrecognized token, and the set of valid normalized tokens
(`f'Envvar {envvar}: Unrecognized option {envized_opt}. Must be one of {set}'`). -/
structure EnvVarError where
  envvar : String
  envizedOpt : String
  validTokens : List String
deriving DecidableEq

/-- The `envized_opts` dict comprehension: normalize every registered flag
string, later flags overwriting earlier ones on a normalized-token
collision, each mapping back to the original flag. -/
def envizedOpts (envizeFn : String → String) (p : Parser) : List (String × String) :=
  (p.optionStringActions.map Prod.fst).foldl
    (fun d opt => dinsert d (envizeFn opt) opt) []

/-- The resolved prefix `env_prefix or envize_str_fn(parser.prog)`:
Python `or` falls through both on `None` and on the empty string. -/
def resolvedPref (envizeFn : String → String) (p : Parser) (envPre : Option String) : String :=
  match envPre with
  | some s => if s == "" then envizeFn p.prog else s
  | none => envizeFn p.prog

/-- The loop body of `_extra_args_from_env` / `args_from_env` over the
environment items, carrying the accumulated `extra_args`.  A variable not
starting with `prefix + '_'` or with an empty value is skipped; an
unmatched token raises; a matched one resolves to its original flag and
action and prepends `[opt] + ([val] if action.nargs is None or action.nargs
else [])` to the accumulator. -/
def envLoop (eo : List (String × String)) (osa : List (String × ArgAction))
    (pre : String) : List (String × String) → List String →
    Except EnvVarError (List String)
  | [], acc => .ok acc
  | (envvar, envvarVal) :: rest, acc =>
    if !(strStartsWith envvar (pre ++ "_")) || envvarVal == "" then
      envLoop eo osa pre rest acc
    else
      match dlookup eo (strDropChars envvar (pre.length + 1)) with
      | none => .error ⟨envvar, strDropChars envvar (pre.length + 1), eo.map Prod.fst⟩
      | some opt =>
        match dlookup osa opt with
        | none => .error ⟨envvar, strDropChars envvar (pre.length + 1), eo.map Prod.fst⟩
        | some a =>
          envLoop eo osa pre rest
            (([opt] ++ (if a.nargs.emitsValue then [envvarVal] else [])) ++ acc)

/-- `_extra_args_from_env(env)` / `args_from_env()`: resolve the prefix,
build the normalized-flag table, and run the loop over the environment
items in their iteration order with an empty accumulator. -/
def extraArgsFromEnv (envizeFn : String → String) (p : Parser) (envPre : Option String)
    (env : List (String × String)) : Except EnvVarError (List String) :=
  envLoop (envizedOpts envizeFn p) p.optionStringActions
    (resolvedPref envizeFn p envPre) env []

/-! ## Entry points -/

/-- Any failure surfaced by a parse call: an environment-overlay
`ValueError` or an argparse argument error. -/
inductive ArgsError
  | envError (e : EnvVarError)
  | argumentError (msg : String)
deriving DecidableEq

/-- The decorator-produced `from_args(argv=None)` from `decorator.py`:
when `argv` is omitted it becomes the env-derived tokens (if `include_env`)
followed by `sys.argv[1:]`; an explicitly supplied list, empty included,
is parsed as-is and the environment is never consulted. -/
def fromArgsDecorator (envizeFn : String → String) (p : Parser) (envPre : Option String)
    (includeEnv : Bool) (env : List (String × String)) (sysArgvTail : List String)
    (argv : Option (List String)) : Except ArgsError (List (String × Value)) :=
  match argv with
  | some explicitArgs =>
    (parseArgsNs p explicitArgs).mapError .argumentError
  | none =>
    match (if includeEnv then extraArgsFromEnv envizeFn p envPre env else .ok []) with
    | .error e => .error (.envError e)
    | .ok extra => (parseArgsNs p (extra ++ sysArgvTail)).mapError .argumentError

/-- The `ArgsFromEnv` plugin's `from_args(argv)` from
`plugins/args_from_env.py`: always prepend the env-derived tokens as a
whole before the given argv, then parse. -/
def fromArgsPlugin (envizeFn : String → String) (p : Parser) (envPre : Option String)
    (env : List (String × String)) (argv : List String) :
    Except ArgsError (List (String × Value)) :=
  match extraArgsFromEnv envizeFn p envPre env with
  | .error e => .error (.envError e)
  | .ok extra => (parseArgsNs p (extra ++ argv)).mapError .argumentError

/-! ## Concrete registries used by the spec's examples -/

/-- `argparse_argument('--count', type=int)`: a single-valued integer
flag. -/
def countSpec : ArgSpec :=
  { optionStrings := ["--count"]
    nargs := .noneN
    argType := .tInt
    constVal := .vNone
    defaultVal := .vNone }

/-- The record with the single field `count` bound to `--count`. -/
def countField : FieldDecl := { name := "count", args := [countSpec] }

/-- The parser built at definition time for the `count` record with
`prog='app'`. -/
def countParser : Parser :=
  match buildParser "app" [countField] with
  | .ok p => p
  | .error _ => mkArgumentParser "app"

/-- `argparse_argument('-v', '--verbose', action='store_true')`: a
zero-arity boolean flag. -/
def verboseSpec : ArgSpec :=
  { optionStrings := ["-v", "--verbose"]
    nargs := .num 0
    argType := .tStr
    constVal := .vBool true
    defaultVal := .vBool false }

/-- A record with the integer flag `--count` and the boolean flag
`-v`, `--verbose`. -/
def countVerboseParser : Parser :=
  match buildParser "app" [countField, { name := "verbose", args := [verboseSpec] }] with
  | .ok p => p
  | .error _ => mkArgumentParser "app"

/-- Two single-valued string flags `--alpha` and `--beta`, used to exhibit
the overlay's dependence on environment iteration order. -/
def alphaBetaParser : Parser :=
  match buildParser "app"
      [ { name := "alpha"
          args := [{ optionStrings := ["--alpha"], nargs := .noneN, argType := .tStr,
                     constVal := .vNone, defaultVal := .vNone }] }
      , { name := "beta"
          args := [{ optionStrings := ["--beta"], nargs := .noneN, argType := .tStr,
                     constVal := .vNone, defaultVal := .vNone }] } ] with
  | .ok p => p
  | .error _ => mkArgumentParser "app"

example : buildParser "app" [countField] = .ok countParser := by decide
example : extraArgsFromEnv default_envize_string countParser (some "APP")
    [("APP_COUNT", "5")] = .ok ["--count", "5"] := by decide
example : fromArgsPlugin default_envize_string countParser (some "APP")
    [("APP_COUNT", "5")] ["--count", "9"]
    = .ok [("count", .vInt 9)] := by decide
example : fromArgsPlugin default_envize_string countParser (some "APP")
    [("APP_COUNT", "5")] []
    = .ok [("count", .vInt 5)] := by decide
example : fromArgsDecorator default_envize_string countParser (some "APP") true
    [("APP_COUNT", "5")] [] (some [])
    = .ok [("count", .vNone)] := by decide
example : extraArgsFromEnv default_envize_string countParser (some "APP")
    [("APP_UNKNOWN", "1")]
    = .error ⟨"APP_UNKNOWN", "UNKNOWN", ["h", "HELP", "COUNT"]⟩ := by decide
example : extraArgsFromEnv default_envize_string alphaBetaParser (some "APP")
    [("APP_ALPHA", "1"), ("APP_BETA", "2")]
    = .ok ["--beta", "2", "--alpha", "1"] := by decide
example : extraArgsFromEnv default_envize_string alphaBetaParser (some "APP")
    [("APP_BETA", "2"), ("APP_ALPHA", "1")]
    = .ok ["--alpha", "1", "--beta", "2"] := by decide
example : extraArgsFromEnv default_envize_string countVerboseParser (some "APP")
    [("APP_VERBOSE", "1")] = .ok ["--verbose"] := by decide
example : buildParser "app"
    [ { name := "verbosity", args := [verboseSpec] }
    , { name := "loud", args := [verboseSpec] } ]
    = .error (.conflictingOptionStrings ["-v", "--verbose"] ["-v", "--verbose"]) := by
  decide

/-! ## Character-level lemmas for the string normalizer -/

/-- Characters that may occur in a normalized token: the regex class
`[a-zA-Z0-9]` plus the underscore separator. -/
def okChar (c : Char) : Bool := isAsciiAlnum c || c == '_'

/-- Adjacent characters of a normalized token are never both underscores. -/
def noTwoUS (a b : Char) : Prop := ¬(a = '_' ∧ b = '_')

theorem char_toNat_ofNat_valid (n : Nat) (h : n.isValidChar) :
    (Char.ofNat n).toNat = n := by
  unfold Char.ofNat
  rw [dif_pos h]
  unfold Char.ofNatAux Char.toNat
  simp [UInt32.toNat, BitVec.toNat_ofNatLt]

theorem char_eq_of_toNat_eq {a b : Char} (h : a.toNat = b.toNat) : a = b :=
  Char.ext (UInt32.ext h)

theorem isAsciiAlnum_iff {c : Char} :
    isAsciiAlnum c = true ↔
      (48 ≤ c.toNat ∧ c.toNat ≤ 57) ∨ (65 ≤ c.toNat ∧ c.toNat ≤ 90) ∨
        (97 ≤ c.toNat ∧ c.toNat ≤ 122) := by
  simp only [isAsciiAlnum, Bool.or_eq_true, Bool.and_eq_true, decide_eq_true_eq]
  tauto

theorem toUpper_of_lower {c : Char} (h : 97 ≤ c.toNat ∧ c.toNat ≤ 122) :
    c.toUpper.toNat = c.toNat - 32 := by
  unfold Char.toUpper
  rw [if_pos ⟨h.1, h.2⟩]
  exact char_toNat_ofNat_valid _ (Or.inl (by omega))

theorem toUpper_of_not_lower {c : Char} (h : ¬(97 ≤ c.toNat ∧ c.toNat ≤ 122)) :
    c.toUpper = c := by
  unfold Char.toUpper
  rw [if_neg]
  intro hc
  exact h ⟨hc.1, hc.2⟩

theorem isAsciiAlnum_toUpper {c : Char} (h : isAsciiAlnum c = true) :
    isAsciiAlnum c.toUpper = true := by
  rcases Classical.em (97 ≤ c.toNat ∧ c.toNat ≤ 122) with hl | hl
  · rw [isAsciiAlnum_iff, toUpper_of_lower hl]
    omega
  · rw [toUpper_of_not_lower hl]
    exact h

theorem isAsciiAlnum_ne_underscore {c : Char} (h : isAsciiAlnum c = true) :
    c ≠ '_' := by
  intro hc
  subst hc
  simp [isAsciiAlnum] at h

theorem toUpper_eq_underscore_iff {c : Char} : c.toUpper = '_' ↔ c = '_' := by
  constructor
  · intro h
    rcases Classical.em (97 ≤ c.toNat ∧ c.toNat ≤ 122) with hl | hl
    · exfalso
      have := congrArg Char.toNat h
      rw [toUpper_of_lower hl] at this
      have h95 : ('_' : Char).toNat = 95 := by decide
      omega
    · rwa [toUpper_of_not_lower hl] at h
  · intro h
    subst h
    decide

theorem toUpper_toUpper (c : Char) : c.toUpper.toUpper = c.toUpper := by
  rcases Classical.em (97 ≤ c.toNat ∧ c.toNat ≤ 122) with hl | hl
  · apply toUpper_of_not_lower
    rw [toUpper_of_lower hl]
    omega
  · rw [toUpper_of_not_lower hl, toUpper_of_not_lower hl]

theorem okChar_toUpper {c : Char} (h : okChar c = true) : okChar c.toUpper = true := by
  rcases Bool.or_eq_true .. |>.mp h with ha | hu
  · exact Bool.or_eq_true .. |>.mpr (Or.inl (isAsciiAlnum_toUpper ha))
  · have : c = '_' := by simpa [beq_iff_eq] using hu
    subst this
    decide

/-! ## Normal-form properties of the normalizer pipeline -/

theorem mem_subNonAlnum_ok :
    ∀ (b : Bool) (l : List Char) (c : Char), c ∈ subNonAlnum b l → okChar c = true := by
  intro b l
  induction l generalizing b with
  | nil => intro c hc; simp [subNonAlnum] at hc
  | cons d ds ih =>
    intro c hc
    by_cases hd : isAsciiAlnum d = true
    · rw [subNonAlnum, if_pos hd] at hc
      rcases List.mem_cons.mp hc with h | h
      · subst h
        exact Bool.or_eq_true .. |>.mpr (Or.inl hd)
      · exact ih false c h
    · rw [subNonAlnum, if_neg hd] at hc
      cases b with
      | true =>
        rw [if_pos rfl] at hc
        exact ih true c hc
      | false =>
        rw [if_neg (by decide)] at hc
        rcases List.mem_cons.mp hc with h | h
        · subst h
          decide
        · exact ih true c h

theorem head?_subNonAlnum_true :
    ∀ l : List Char, (subNonAlnum true l).head? ≠ some '_' := by
  intro l
  induction l with
  | nil => simp [subNonAlnum]
  | cons d ds ih =>
    by_cases hd : isAsciiAlnum d = true
    · rw [subNonAlnum, if_pos hd]
      intro h
      rw [List.head?_cons, Option.some_inj] at h
      exact isAsciiAlnum_ne_underscore hd h
    · rw [subNonAlnum, if_neg hd, if_pos rfl]
      exact ih

theorem chain'_subNonAlnum :
    ∀ (b : Bool) (l : List Char), List.Chain' noTwoUS (subNonAlnum b l) := by
  intro b l
  induction l generalizing b with
  | nil => rw [subNonAlnum]; exact List.chain'_nil
  | cons d ds ih =>
    by_cases hd : isAsciiAlnum d = true
    · rw [subNonAlnum, if_pos hd, List.chain'_cons']
      refine ⟨?_, ih false⟩
      intro y _hy hc
      exact isAsciiAlnum_ne_underscore hd hc.1
    · cases b with
      | true =>
        rw [subNonAlnum, if_neg hd, if_pos rfl]
        exact ih true
      | false =>
        rw [subNonAlnum, if_neg hd, if_neg (by decide), List.chain'_cons']
        refine ⟨?_, ih true⟩
        intro y hy hc
        rw [Option.mem_def] at hy
        rw [hc.2] at hy
        exact head?_subNonAlnum_true ds hy

theorem subNonAlnum_eq_self :
    ∀ l : List Char, (∀ c ∈ l, okChar c = true) → List.Chain' noTwoUS l →
      subNonAlnum false l = l := by
  intro l
  induction l with
  | nil => intro _ _; rfl
  | cons d ds ih =>
    intro hok hch
    by_cases hd : isAsciiAlnum d = true
    · rw [subNonAlnum, if_pos hd, ih (fun c hc => hok c (List.mem_cons_of_mem _ hc)) hch.tail]
    · have hdus : d = '_' := by
        rcases Bool.or_eq_true .. |>.mp (hok d (List.mem_cons_self _ _)) with h | h
        · exact absurd h hd
        · exact eq_of_beq h
      subst hdus
      rw [subNonAlnum, if_neg hd, if_neg (by decide)]
      congr 1
      cases ds with
      | nil => rfl
      | cons e es =>
        have he : isAsciiAlnum e = true := by
          have hne : e ≠ '_' := by
            intro he'
            exact (List.chain'_cons'.mp hch).1 e (by rw [Option.mem_def, List.head?_cons])
              ⟨rfl, he'⟩
          rcases Bool.or_eq_true .. |>.mp
              (hok e (List.mem_cons_of_mem _ (List.mem_cons_self _ _))) with h | h
          · exact h
          · exact absurd (eq_of_beq h) hne
        have h1 : subNonAlnum true (e :: es) = subNonAlnum false (e :: es) := by
          rw [subNonAlnum, if_pos he, subNonAlnum, if_pos he]
        rw [h1, ih (fun c hc => hok c (List.mem_cons_of_mem _ hc)) hch.tail]

theorem subNonAlnum_true_of_all_non :
    ∀ l : List Char, (∀ c ∈ l, isAsciiAlnum c = false) → subNonAlnum true l = [] := by
  intro l
  induction l with
  | nil => intro _; rfl
  | cons d ds ih =>
    intro h
    rw [subNonAlnum, if_neg (by rw [h d (List.mem_cons_self _ _)]; decide), if_pos rfl]
    exact ih (fun c hc => h c (List.mem_cons_of_mem _ hc))

theorem head?_dropWhile_us (l : List Char) :
    (l.dropWhile (fun c => c == '_')).head? ≠ some '_' := by
  induction l with
  | nil => simp
  | cons d ds ih =>
    rw [List.dropWhile_cons]
    by_cases hd : (d == '_') = true
    · rw [if_pos hd]
      exact ih
    · rw [if_neg hd]
      intro h
      rw [List.head?_cons, Option.some_inj] at h
      subst h
      exact hd (by decide)

theorem getLast?_dropWhile (p : Char → Bool) :
    ∀ l : List Char, (l.dropWhile p).getLast? = l.getLast? ∨ l.dropWhile p = [] := by
  intro l
  induction l with
  | nil => right; rfl
  | cons d ds ih =>
    rw [List.dropWhile_cons]
    by_cases hd : p d = true
    · rw [if_pos hd]
      cases ds with
      | nil => right; rfl
      | cons e es =>
        rcases ih with h | h
        · left
          rw [h, List.getLast?_cons_cons]
        · right
          exact h
    · rw [if_neg hd]
      left
      rfl

theorem chain'_dropWhile {R : Char → Char → Prop} (p : Char → Bool) :
    ∀ l : List Char, List.Chain' R l → List.Chain' R (l.dropWhile p) := by
  intro l
  induction l with
  | nil => intro h; exact h
  | cons d ds ih =>
    intro h
    rw [List.dropWhile_cons]
    by_cases hd : p d = true
    · rw [if_pos hd]
      exact ih h.tail
    · rw [if_neg hd]
      exact h

theorem noTwoUS_flip {a b : Char} (h : noTwoUS a b) : noTwoUS b a := by
  intro hc
  exact h ⟨hc.2, hc.1⟩

theorem chain'_stripUnderscores {l : List Char} (h : List.Chain' noTwoUS l) :
    List.Chain' noTwoUS (stripUnderscores l) := by
  unfold stripUnderscores
  rw [List.chain'_reverse]
  apply List.Chain'.imp (fun a b hab => noTwoUS_flip hab)
  apply chain'_dropWhile
  rw [List.chain'_reverse]
  apply List.Chain'.imp (fun a b hab => noTwoUS_flip hab)
  exact chain'_dropWhile _ l h

theorem mem_stripUnderscores {c : Char} {l : List Char} (h : c ∈ stripUnderscores l) :
    c ∈ l := by
  unfold stripUnderscores at h
  rw [List.mem_reverse] at h
  have h2 := (List.dropWhile_sublist _).mem h
  rw [List.mem_reverse] at h2
  exact (List.dropWhile_sublist _).mem h2

theorem stripUnderscores_head? (l : List Char) :
    (stripUnderscores l).head? ≠ some '_' := by
  unfold stripUnderscores
  rw [List.head?_reverse]
  rcases getLast?_dropWhile (fun c => c == '_') (l.dropWhile (fun c => c == '_')).reverse
    with h | h
  · rw [h, List.getLast?_reverse]
    exact head?_dropWhile_us l
  · rw [h]
    simp

theorem stripUnderscores_getLast? (l : List Char) :
    (stripUnderscores l).getLast? ≠ some '_' := by
  unfold stripUnderscores
  rw [List.getLast?_reverse]
  exact head?_dropWhile_us _

theorem dropWhile_us_eq_self {l : List Char} (h : l.head? ≠ some '_') :
    l.dropWhile (fun c => c == '_') = l := by
  cases l with
  | nil => rfl
  | cons d ds =>
    rw [List.dropWhile_cons, if_neg]
    intro hb
    rw [List.head?_cons] at h
    exact h (by rw [eq_of_beq hb])

theorem stripUnderscores_eq_self {l : List Char} (h1 : l.head? ≠ some '_')
    (h2 : l.getLast? ≠ some '_') : stripUnderscores l = l := by
  unfold stripUnderscores
  rw [dropWhile_us_eq_self h1, dropWhile_us_eq_self (by rw [List.head?_reverse]; exact h2),
    List.reverse_reverse]

/-! ## The normalized token is in normal form, and the pipeline fixes
normal forms -/

theorem envizeSubbed_ok (s : String) : ∀ c ∈ envizeSubbed s, okChar c = true :=
  fun c hc => mem_subNonAlnum_ok false s.data c (mem_stripUnderscores hc)

theorem envizeSubbed_chain' (s : String) : List.Chain' noTwoUS (envizeSubbed s) :=
  chain'_stripUnderscores (chain'_subNonAlnum false s.data)

theorem envizeSubbed_head? (s : String) : (envizeSubbed s).head? ≠ some '_' :=
  stripUnderscores_head? _

theorem envizeSubbed_getLast? (s : String) : (envizeSubbed s).getLast? ≠ some '_' :=
  stripUnderscores_getLast? _

theorem envizeSubbed_of_normal {l : List Char} (hok : ∀ c ∈ l, okChar c = true)
    (hch : List.Chain' noTwoUS l) (h1 : l.head? ≠ some '_')
    (h2 : l.getLast? ≠ some '_') : envizeSubbed (String.mk l) = l := by
  unfold envizeSubbed
  rw [show (String.mk l).data = l from rfl, subNonAlnum_eq_self l hok hch,
    stripUnderscores_eq_self h1 h2]

theorem upperChars_ok {l : List Char} (hok : ∀ c ∈ l, okChar c = true) :
    ∀ c ∈ upperChars l, okChar c = true := by
  intro c hc
  rcases List.mem_map.mp hc with ⟨d, hd, hdc⟩
  subst hdc
  exact okChar_toUpper (hok d hd)

theorem upperChars_chain' {l : List Char} (hch : List.Chain' noTwoUS l) :
    List.Chain' noTwoUS (upperChars l) := by
  unfold upperChars
  rw [List.chain'_map]
  apply List.Chain'.imp ?_ hch
  intro a b hab hc
  exact hab ⟨toUpper_eq_underscore_iff.mp hc.1, toUpper_eq_underscore_iff.mp hc.2⟩

theorem upperChars_head? {l : List Char} (h : l.head? ≠ some '_') :
    (upperChars l).head? ≠ some '_' := by
  unfold upperChars
  rw [List.head?_map]
  intro hc
  cases hh : l.head? with
  | none => rw [hh] at hc; exact Option.noConfusion hc
  | some d =>
    rw [hh] at hc
    rw [Option.map_some'] at hc
    rw [Option.some_inj] at hc
    exact h (by rw [hh, toUpper_eq_underscore_iff.mp hc])

theorem upperChars_getLast? {l : List Char} (h : l.getLast? ≠ some '_') :
    (upperChars l).getLast? ≠ some '_' := by
  unfold upperChars
  rw [List.getLast?_map]
  intro hc
  cases hh : l.getLast? with
  | none => rw [hh] at hc; exact Option.noConfusion hc
  | some d =>
    rw [hh] at hc
    rw [Option.map_some'] at hc
    rw [Option.some_inj] at hc
    exact h (by rw [hh, toUpper_eq_underscore_iff.mp hc])

theorem upperChars_upperChars (l : List Char) : upperChars (upperChars l) = upperChars l := by
  unfold upperChars
  rw [List.map_map]
  exact List.map_congr_left (fun a _ => toUpper_toUpper a)

theorem upperChars_length (l : List Char) : (upperChars l).length = l.length :=
  List.length_map ..

theorem envizeSubbed_of_all_non {s : String} (h : ∀ c ∈ s.data, isAsciiAlnum c = false) :
    envizeSubbed s = [] := by
  unfold envizeSubbed
  cases hd : s.data with
  | nil => rfl
  | cons d ds =>
    have hdn : isAsciiAlnum d = false := h d (by rw [hd]; exact List.mem_cons_self _ _)
    rw [subNonAlnum, if_neg (by rw [hdn]; decide), if_neg (by decide),
      subNonAlnum_true_of_all_non ds
        (fun c hc => h c (by rw [hd]; exact List.mem_cons_of_mem _ hc))]
    rfl

/-- Unfolding `default_envize_string` through its default case policy. -/
theorem default_envize_string_eq (s : String) :
    default_envize_string s =
      if (envizeSubbed s).length = 1 then String.mk (envizeSubbed s)
      else String.mk (upperChars (envizeSubbed s)) := by
  unfold default_envize_string envizeWith defaultKeepCase keepCaseApplies
  rcases Classical.em ((envizeSubbed s).length = 1) with h | h
  · rw [if_pos (by rw [beq_iff_eq]; exact h), if_pos h]
  · rw [if_neg (by rw [beq_iff_eq]; exact h), if_neg h]

/-- C7: the string normalizer is idempotent under the default case policy:
for every option label `s`, `envize(envize(s)) = envize(s)`. -/
theorem default_envize_string_idempotent (s : String) :
    default_envize_string (default_envize_string s) = default_envize_string s := by
  have hok := envizeSubbed_ok s
  have hch := envizeSubbed_chain' s
  have hh := envizeSubbed_head? s
  have hl := envizeSubbed_getLast? s
  rw [default_envize_string_eq s]
  rcases Classical.em ((envizeSubbed s).length = 1) with h1 | h1
  · rw [if_pos h1, default_envize_string_eq, envizeSubbed_of_normal hok hch hh hl,
      if_pos h1]
  · rw [if_neg h1, default_envize_string_eq,
      envizeSubbed_of_normal (upperChars_ok hok) (upperChars_chain' hch)
        (upperChars_head? hh) (upperChars_getLast? hl),
      if_neg (by rw [upperChars_length]; exact h1), upperChars_upperChars]

/-- C8: every character of an envized token is in `[A-Za-z0-9_]`, the
token neither starts nor ends with an underscore, and an input consisting
entirely of non-alphanumeric characters normalizes to the empty string. -/
theorem default_envize_string_charset (s : String) :
    (default_envize_string s).data.all okChar = true ∧
    (default_envize_string s).data.head? ≠ some '_' ∧
    (default_envize_string s).data.getLast? ≠ some '_' ∧
    (s.data.all (fun c => !(isAsciiAlnum c)) = true → default_envize_string s = "") := by
  rw [default_envize_string_eq s]
  refine ⟨?_, ?_, ?_, ?_⟩
  · rcases Classical.em ((envizeSubbed s).length = 1) with h1 | h1
    · rw [if_pos h1]
      exact List.all_eq_true.mpr (envizeSubbed_ok s)
    · rw [if_neg h1]
      exact List.all_eq_true.mpr (upperChars_ok (envizeSubbed_ok s))
  · rcases Classical.em ((envizeSubbed s).length = 1) with h1 | h1
    · rw [if_pos h1]
      exact envizeSubbed_head? s
    · rw [if_neg h1]
      exact upperChars_head? (envizeSubbed_head? s)
  · rcases Classical.em ((envizeSubbed s).length = 1) with h1 | h1
    · rw [if_pos h1]
      exact envizeSubbed_getLast? s
    · rw [if_neg h1]
      exact upperChars_getLast? (envizeSubbed_getLast? s)
  · intro hall
    have hz : envizeSubbed s = [] :=
      envizeSubbed_of_all_non (fun c hc => by
        have := List.all_eq_true.mp hall c hc
        exact Bool.not_eq_true' .. |>.mp this)
    rw [hz]
    rw [if_neg (by simp)]
    rfl

/-- C9: the default case policy keeps the normalized token's original case
exactly when it has length 1, and uppercases it otherwise. -/
theorem default_envize_string_case_policy (s : String) :
    ((envizeSubbed s).length = 1 → default_envize_string s = String.mk (envizeSubbed s)) ∧
    ((envizeSubbed s).length ≠ 1 →
      default_envize_string s = String.mk (upperChars (envizeSubbed s))) := by
  rw [default_envize_string_eq s]
  constructor
  · intro h
    rw [if_pos h]
  · intro h
    rw [if_neg h]

/-- Witness for C8: an all-punctuation label envizes to the empty string. -/
theorem default_envize_string_charset_witness :
    default_envize_string "--%%--" = "" :=
  (default_envize_string_charset "--%%--").2.2.2 (by decide)

/-- Witness for C9: the short flag keeps its case, the long flag is
uppercased. -/
theorem default_envize_string_case_policy_witness :
    default_envize_string "-v" = "v" ∧ default_envize_string "--verbose" = "VERBOSE" :=
  ⟨((default_envize_string_case_policy "-v").1 (by decide)).trans (by decide),
   ((default_envize_string_case_policy "--verbose").2 (by decide)).trans (by decide)⟩

/-! ## End-to-end wrapper and auxiliary predicates -/

/-- Any failure from defining a record type and immediately parsing with
it: a build-time configuration error or a parse-time failure. -/
inductive DefineOrParseError
  | configError (e : ConfigError)
  | argsError (e : ArgsError)
deriving DecidableEq

/-- The whole decorator pipeline: register the fields at record-type
definition time, then call the decorator-produced `from_args`.  A
registration failure surfaces on its own, before any parse can run. -/
def defineThenFromArgs (progName : String) (fieldsL : List FieldDecl)
    (envizeFn : String → String) (envPre : Option String) (includeEnv : Bool)
    (env : List (String × String)) (sysArgvTail : List String)
    (argv : Option (List String)) : Except DefineOrParseError (List (String × Value)) :=
  match buildParser progName fieldsL with
  | .error e => .error (.configError e)
  | .ok p =>
    (fromArgsDecorator envizeFn p envPre includeEnv env sysArgvTail argv).mapError .argsError

/-- Two fields both registering the flag strings of `verboseSpec`. -/
def dupFields : List FieldDecl :=
  [ { name := "verbosity", args := [verboseSpec] }
  , { name := "loud", args := [verboseSpec] } ]

/-- An environment entry the overlay must reject: its name starts with the
prefix and separator, its value is non-empty, and the remainder of the
name is not a key of the normalized-flag table. -/
def isUnmatchedEnvVar (eo : List (String × String)) (pre : String)
    (ev : String × String) : Bool :=
  strStartsWith ev.1 (pre ++ "_") && !(ev.2 == "") &&
    (dlookup eo (strDropChars ev.1 (pre.length + 1))).isNone

/-- The token group one environment entry contributes: `none` when the
entry is skipped or has no resolution, otherwise the flag token followed
by the value when the action's arity consumes one. -/
def envGroup (eo : List (String × String)) (osa : List (String × ArgAction))
    (pre : String) (ev : String × String) : Option (List String) :=
  if !(strStartsWith ev.1 (pre ++ "_")) || ev.2 == "" then none
  else
    match dlookup eo (strDropChars ev.1 (pre.length + 1)) with
    | none => none
    | some opt =>
      match dlookup osa opt with
      | none => none
      | some a => some ([opt] ++ (if a.nargs.emitsValue then [ev.2] else []))

/-! ## Dictionary lemmas -/

theorem dlookup_mem {α : Type} :
    ∀ (d : List (String × α)) (k : String) (v : α), dlookup d k = some v → (k, v) ∈ d := by
  intro d
  induction d with
  | nil => intro k v h; exact Option.noConfusion h
  | cons kv rest ih =>
    intro k v h
    obtain ⟨k0, v0⟩ := kv
    rw [dlookup] at h
    by_cases hk : (k0 == k) = true
    · rw [if_pos hk, Option.some_inj] at h
      subst h
      rw [eq_of_beq hk]
      exact List.mem_cons_self _ _
    · rw [if_neg hk] at h
      exact List.mem_cons_of_mem _ (ih k v h)

theorem dlookup_isSome_of_mem_keys {α : Type} :
    ∀ (d : List (String × α)) (k : String), k ∈ d.map Prod.fst →
      (dlookup d k).isSome = true := by
  intro d
  induction d with
  | nil => intro k h; simp at h
  | cons kv rest ih =>
    intro k h
    obtain ⟨k0, v0⟩ := kv
    rw [List.map_cons] at h
    rw [dlookup]
    by_cases hk : (k0 == k) = true
    · rw [if_pos hk]
      rfl
    · rw [if_neg hk]
      apply ih
      rcases List.mem_cons.mp h with h1 | h1
      · exact absurd (beq_iff_eq .. |>.mpr h1.symm) hk
      · exact h1

theorem mem_dinsert {α : Type} :
    ∀ (d : List (String × α)) (k : String) (v : α) (kv : String × α),
      kv ∈ dinsert d k v → kv ∈ d ∨ kv = (k, v) := by
  intro d
  induction d with
  | nil =>
    intro k v kv h
    right
    simpa [dinsert] using h
  | cons kv0 rest ih =>
    intro k v kv h
    obtain ⟨k0, v0⟩ := kv0
    rw [dinsert] at h
    by_cases hk : (k0 == k) = true
    · rw [if_pos hk] at h
      rcases List.mem_cons.mp h with h1 | h1
      · right; exact h1
      · left; exact List.mem_cons_of_mem _ h1
    · rw [if_neg hk] at h
      rcases List.mem_cons.mp h with h1 | h1
      · left; rw [h1]; exact List.mem_cons_self _ _
      · rcases ih k v kv h1 with h2 | h2
        · left; exact List.mem_cons_of_mem _ h2
        · right; exact h2

theorem mem_foldl_dinsert (f : String → String) :
    ∀ (ks : List String) (d : List (String × String)) (kv : String × String),
      kv ∈ ks.foldl (fun acc opt => dinsert acc (f opt) opt) d →
      kv ∈ d ∨ kv.2 ∈ ks := by
  intro ks
  induction ks with
  | nil =>
    intro d kv h
    left
    exact h
  | cons k ks ih =>
    intro d kv h
    rw [List.foldl_cons] at h
    rcases ih (dinsert d (f k) k) kv h with h1 | h1
    · rcases mem_dinsert d (f k) k kv h1 with h2 | h2
      · left; exact h2
      · right; rw [h2]; exact List.mem_cons_self _ _
    · right; exact List.mem_cons_of_mem _ h1

/-- Every value of the `envized_opts` table is a registered flag string of
the parser, so the `parser._option_string_actions[opt]` lookup inside the
overlay loop never fails. -/
theorem envizedOpts_values_registered (envizeFn : String → String) (p : Parser)
    (k opt : String) (h : dlookup (envizedOpts envizeFn p) k = some opt) :
    (dlookup p.optionStringActions opt).isSome = true := by
  apply dlookup_isSome_of_mem_keys
  have hmem := dlookup_mem _ _ _ h
  rcases mem_foldl_dinsert envizeFn _ _ _ hmem with h1 | h1
  · simp at h1
  · simpa using h1

/-! ## The overlay loop: abort on unmatched variables, and its
order-dependent output on matched ones -/

theorem envLoop_error_of_unmatched (eo : List (String × String))
    (osa : List (String × ArgAction)) (pre : String)
    (hv : ∀ k opt, dlookup eo k = some opt → (dlookup osa opt).isSome = true) :
    ∀ (env : List (String × String)) (acc : List String),
      (∃ ev ∈ env, isUnmatchedEnvVar eo pre ev = true) →
      ∃ e : EnvVarError, envLoop eo osa pre env acc = .error e ∧
        e.validTokens = eo.map Prod.fst ∧
        (∃ ev ∈ env, ev.1 = e.envvar ∧ isUnmatchedEnvVar eo pre ev = true) ∧
        e.envizedOpt = strDropChars e.envvar (pre.length + 1) := by
  intro env
  induction env with
  | nil =>
    intro acc h
    rcases h with ⟨ev, hev, _⟩
    simp at hev
  | cons ev0 rest ih =>
    intro acc hbad
    obtain ⟨envvar, val⟩ := ev0
    by_cases hskip : (!(strStartsWith envvar (pre ++ "_")) || val == "") = true
    · rw [envLoop, if_pos hskip]
      have hrest : ∃ ev ∈ rest, isUnmatchedEnvVar eo pre ev = true := by
        rcases hbad with ⟨ev, hev, hbadev⟩
        rcases List.mem_cons.mp hev with h1 | h1
        · exfalso
          subst h1
          unfold isUnmatchedEnvVar at hbadev
          rcases Bool.and_eq_true .. |>.mp hbadev with ⟨h2, _⟩
          rcases Bool.and_eq_true .. |>.mp h2 with ⟨hstarts, hvalne⟩
          rcases Bool.or_eq_true .. |>.mp hskip with h3 | h3
          · rw [Bool.not_eq_true'] at h3
            rw [hstarts] at h3
            exact Bool.noConfusion h3
          · rw [Bool.not_eq_true'] at hvalne
            rw [h3] at hvalne
            exact Bool.noConfusion hvalne
        · exact ⟨ev, h1, hbadev⟩
      obtain ⟨e, he, hts, ⟨ev, hev, hee, hbadev⟩, hdrop⟩ := ih acc hrest
      exact ⟨e, he, hts, ⟨ev, List.mem_cons_of_mem _ hev, hee, hbadev⟩, hdrop⟩
    · rw [envLoop, if_neg hskip]
      have hns : strStartsWith envvar (pre ++ "_") = true ∧ (val == "") = false := by
        constructor
        · cases hs : strStartsWith envvar (pre ++ "_") with
          | true => rfl
          | false =>
            exact absurd (Bool.or_eq_true .. |>.mpr
              (Or.inl (by rw [Bool.not_eq_true', hs]))) hskip
        · cases hvv : (val == "") with
          | false => rfl
          | true => exact absurd (Bool.or_eq_true .. |>.mpr (Or.inr hvv)) hskip
      cases hlook : dlookup eo (strDropChars envvar (pre.length + 1)) with
      | none =>
        refine ⟨⟨envvar, strDropChars envvar (pre.length + 1), eo.map Prod.fst⟩,
          rfl, rfl, ⟨(envvar, val), List.mem_cons_self _ _, rfl, ?_⟩, rfl⟩
        unfold isUnmatchedEnvVar
        rw [hns.1, hlook]
        simp [hns.2]
      | some opt =>
        have hsome := hv _ _ hlook
        cases hosa : dlookup osa opt with
        | none =>
          rw [hosa] at hsome
          exact Bool.noConfusion hsome
        | some a =>
          have hrest : ∃ ev ∈ rest, isUnmatchedEnvVar eo pre ev = true := by
            rcases hbad with ⟨ev, hev, hbadev⟩
            rcases List.mem_cons.mp hev with h1 | h1
            · exfalso
              subst h1
              unfold isUnmatchedEnvVar at hbadev
              rw [hlook] at hbadev
              simp at hbadev
            · exact ⟨ev, h1, hbadev⟩
          obtain ⟨e, he, hts, ⟨ev, hev, hee, hbadev⟩, hdrop⟩ :=
            ih (([opt] ++ (if a.nargs.emitsValue then [val] else [])) ++ acc) hrest
          refine ⟨e, ?_, hts, ⟨ev, List.mem_cons_of_mem _ hev, hee, hbadev⟩, hdrop⟩
          show (match dlookup osa opt with
            | none => Except.error ⟨envvar, strDropChars envvar (pre.length + 1),
                eo.map Prod.fst⟩
            | some a =>
              envLoop eo osa pre rest
                (([opt] ++ (if a.nargs.emitsValue then [val] else [])) ++ acc))
            = Except.error e
          rw [hosa]
          exact he

theorem envLoop_eq_groups (eo : List (String × String))
    (osa : List (String × ArgAction)) (pre : String)
    (hv : ∀ k opt, dlookup eo k = some opt → (dlookup osa opt).isSome = true) :
    ∀ (env : List (String × String)) (acc : List String),
      (∀ ev ∈ env, isUnmatchedEnvVar eo pre ev = false) →
      envLoop eo osa pre env acc
        = .ok (((env.filterMap (envGroup eo osa pre)).reverse).flatten ++ acc) := by
  intro env
  induction env with
  | nil =>
    intro acc _
    rw [envLoop]
    rw [List.filterMap_nil, List.reverse_nil, List.flatten_nil, List.nil_append]
  | cons ev0 rest ih =>
    intro acc hgood
    obtain ⟨envvar, val⟩ := ev0
    by_cases hskip : (!(strStartsWith envvar (pre ++ "_")) || val == "") = true
    · have hgnone : envGroup eo osa pre (envvar, val) = none := by
        show (if !(strStartsWith envvar (pre ++ "_")) || val == "" then none
          else match dlookup eo (strDropChars envvar (pre.length + 1)) with
            | none => none
            | some opt1 =>
              match dlookup osa opt1 with
              | none => none
              | some a1 => some ([opt1] ++ (if a1.nargs.emitsValue then [val] else [])))
          = none
        rw [if_pos hskip]
      rw [envLoop, if_pos hskip,
        ih acc (fun ev hev => hgood ev (List.mem_cons_of_mem _ hev)),
        List.filterMap_cons_none hgnone]
    · have hns : strStartsWith envvar (pre ++ "_") = true ∧ (val == "") = false := by
        constructor
        · cases hs : strStartsWith envvar (pre ++ "_") with
          | true => rfl
          | false =>
            exact absurd (Bool.or_eq_true .. |>.mpr
              (Or.inl (by rw [Bool.not_eq_true', hs]))) hskip
        · cases hvv : (val == "") with
          | false => rfl
          | true => exact absurd (Bool.or_eq_true .. |>.mpr (Or.inr hvv)) hskip
      rw [envLoop, if_neg hskip]
      cases hlook : dlookup eo (strDropChars envvar (pre.length + 1)) with
      | none =>
        exfalso
        have hb := hgood (envvar, val) (List.mem_cons_self _ _)
        unfold isUnmatchedEnvVar at hb
        rw [hlook] at hb
        simp [hns.1, hns.2] at hb
      | some opt =>
        have hsome := hv _ _ hlook
        cases hosa : dlookup osa opt with
        | none =>
          rw [hosa] at hsome
          exact Bool.noConfusion hsome
        | some a =>
          have hg : envGroup eo osa pre (envvar, val)
              = some ([opt] ++ (if a.nargs.emitsValue then [val] else [])) := by
            show (if !(strStartsWith envvar (pre ++ "_")) || val == "" then none
              else match dlookup eo (strDropChars envvar (pre.length + 1)) with
                | none => none
                | some opt1 =>
                  match dlookup osa opt1 with
                  | none => none
                  | some a1 => some ([opt1] ++ (if a1.nargs.emitsValue then [val] else [])))
              = some ([opt] ++ (if a.nargs.emitsValue then [val] else []))
            rw [if_neg hskip, hlook]
            show (match dlookup osa opt with
              | none => none
              | some a1 => some ([opt] ++ (if a1.nargs.emitsValue then [val] else [])))
              = some ([opt] ++ (if a.nargs.emitsValue then [val] else []))
            rw [hosa]
          show (match dlookup osa opt with
            | none => Except.error (EnvVarError.mk envvar
                (strDropChars envvar (pre.length + 1)) (eo.map Prod.fst))
            | some a1 =>
              envLoop eo osa pre rest
                (([opt] ++ (if a1.nargs.emitsValue then [val] else [])) ++ acc))
            = Except.ok ((((((envvar, val) :: rest).filterMap
                (envGroup eo osa pre)).reverse)).flatten ++ acc)
          rw [hosa]
          show envLoop eo osa pre rest
              (([opt] ++ (if a.nargs.emitsValue then [val] else [])) ++ acc)
            = Except.ok ((((((envvar, val) :: rest).filterMap
                (envGroup eo osa pre)).reverse)).flatten ++ acc)
          rw [ih (([opt] ++ (if a.nargs.emitsValue then [val] else [])) ++ acc)
              (fun ev hev => hgood ev (List.mem_cons_of_mem _ hev)),
            List.filterMap_cons_some hg,
            List.reverse_cons, List.flatten_append, List.flatten_cons,
            List.flatten_nil, List.append_nil]
          simp [List.append_assoc]

theorem emitsValue_false_iff (n : Nargs) : n.emitsValue = false ↔ n = .num 0 := by
  cases n with
  | noneN => simp [Nargs.emitsValue]
  | num k =>
    cases k with
    | zero => simp [Nargs.emitsValue]
    | succ m => simp [Nargs.emitsValue]
  | qmark => simp [Nargs.emitsValue]
  | star => simp [Nargs.emitsValue]
  | plus => simp [Nargs.emitsValue]

/-! ## Claim theorems -/

/-- C1: the plugin's `from_args` places the environment-derived tokens as
a whole before the explicit command-line tokens, so under last-wins
parsing an explicit argument overrides an environment-sourced value for
the same destination: with prefix APP, flag `--count`, environment
APP_COUNT=5 and explicit argv `--count 9`, the parsed count is 9. -/
theorem env_tokens_precede_explicit_argv :
    (∀ (envizeFn : String → String) (p : Parser) (envPre : Option String)
        (env : List (String × String)) (argv extra : List String),
        extraArgsFromEnv envizeFn p envPre env = .ok extra →
        fromArgsPlugin envizeFn p envPre env argv
          = (parseArgsNs p (extra ++ argv)).mapError ArgsError.argumentError) ∧
    fromArgsPlugin default_envize_string countParser (some "APP")
        [("APP_COUNT", "5")] ["--count", "9"] = .ok [("count", Value.vInt 9)] := by
  constructor
  · intro envizeFn p envPre env argv extra h
    unfold fromArgsPlugin
    rw [h]
  · decide

/-- Witness for C1 at the spec's concrete scenario: the merged token list
is exactly the environment tokens followed by the explicit argv. -/
theorem env_tokens_precede_explicit_argv_witness :
    fromArgsPlugin default_envize_string countParser (some "APP")
        [("APP_COUNT", "5")] ["--count", "9"]
      = (parseArgsNs countParser (["--count", "5"] ++ ["--count", "9"])).mapError
          ArgsError.argumentError :=
  env_tokens_precede_explicit_argv.1 default_envize_string countParser (some "APP")
    [("APP_COUNT", "5")] ["--count", "9"] ["--count", "5"] (by decide)

/-- C2: with prefix APP and the single-valued integer flag `--count`,
environment APP_COUNT=5 and empty argv produce a record whose count field
is 5: the environment alone populates the field. -/
theorem env_alone_populates_field :
    fromArgsPlugin default_envize_string countParser (some "APP")
        [("APP_COUNT", "5")] [] = .ok [("count", Value.vInt 5)] := by
  decide

/-- C3: a prefix-matched, non-empty environment variable whose token after
the prefix is not a key of the normalized-flag table makes the whole
overlay fail with an error naming the offending variable and the set of
valid normalized tokens; no token list is produced at all, so no partial
application of earlier-matched variables can occur. -/
theorem env_overlay_unmatched_var_aborts (envizeFn : String → String) (p : Parser)
    (envPre : Option String) (env : List (String × String))
    (hbad : ∃ ev ∈ env, isUnmatchedEnvVar (envizedOpts envizeFn p)
      (resolvedPref envizeFn p envPre) ev = true) :
    ∃ e : EnvVarError,
      extraArgsFromEnv envizeFn p envPre env = .error e ∧
      e.validTokens = (envizedOpts envizeFn p).map Prod.fst ∧
      (∃ ev ∈ env, ev.1 = e.envvar ∧ isUnmatchedEnvVar (envizedOpts envizeFn p)
        (resolvedPref envizeFn p envPre) ev = true) ∧
      e.envizedOpt = strDropChars e.envvar
        ((resolvedPref envizeFn p envPre).length + 1) :=
  envLoop_error_of_unmatched _ _ _ (envizedOpts_values_registered envizeFn p) env [] hbad

/-- Witness for C3: APP_UNKNOWN=1 against the count registry aborts the
overlay with an error naming APP_UNKNOWN and the valid tokens. -/
theorem env_overlay_unmatched_var_aborts_witness :
    ∃ e : EnvVarError,
      extraArgsFromEnv default_envize_string countParser (some "APP")
          [("APP_UNKNOWN", "1")] = .error e ∧
      e.validTokens = (envizedOpts default_envize_string countParser).map Prod.fst ∧
      (∃ ev ∈ ([("APP_UNKNOWN", "1")] : List (String × String)), ev.1 = e.envvar ∧
        isUnmatchedEnvVar (envizedOpts default_envize_string countParser)
          (resolvedPref default_envize_string countParser (some "APP")) ev = true) ∧
      e.envizedOpt = strDropChars e.envvar
        ((resolvedPref default_envize_string countParser (some "APP")).length + 1) :=
  env_overlay_unmatched_var_aborts default_envize_string countParser (some "APP")
    [("APP_UNKNOWN", "1")] (by decide)

/-- C4 as stated is false: the overlay does not sort the environment by
variable name — two environments holding the same name-to-value pairs in
different iteration orders produce different token lists. -/
theorem env_iteration_order_counterexample :
    ([("APP_ALPHA", "1"), ("APP_BETA", "2")] : List (String × String)).Perm
        [("APP_BETA", "2"), ("APP_ALPHA", "1")] ∧
    extraArgsFromEnv default_envize_string alphaBetaParser (some "APP")
        [("APP_ALPHA", "1"), ("APP_BETA", "2")] = .ok ["--beta", "2", "--alpha", "1"] ∧
    extraArgsFromEnv default_envize_string alphaBetaParser (some "APP")
        [("APP_BETA", "2"), ("APP_ALPHA", "1")] = .ok ["--alpha", "1", "--beta", "2"] ∧
    extraArgsFromEnv default_envize_string alphaBetaParser (some "APP")
        [("APP_ALPHA", "1"), ("APP_BETA", "2")]
      ≠ extraArgsFromEnv default_envize_string alphaBetaParser (some "APP")
        [("APP_BETA", "2"), ("APP_ALPHA", "1")] :=
  ⟨by decide, by decide, by decide, by decide⟩

/-- C4 amended: the overlay processes the environment entries in the
mapping's own iteration order, with no sorting, prepending each resolved
token group — so when every prefix-matched non-empty variable resolves,
the output is exactly the per-entry groups concatenated in reverse
iteration order, a function of the ordered entry list rather than of the
underlying set of pairs. -/
theorem env_overlay_iteration_order_spec (envizeFn : String → String) (p : Parser)
    (envPre : Option String) (env : List (String × String))
    (hgood : ∀ ev ∈ env, isUnmatchedEnvVar (envizedOpts envizeFn p)
      (resolvedPref envizeFn p envPre) ev = false) :
    extraArgsFromEnv envizeFn p envPre env
      = .ok (((env.filterMap (envGroup (envizedOpts envizeFn p) p.optionStringActions
          (resolvedPref envizeFn p envPre))).reverse).flatten) := by
  unfold extraArgsFromEnv
  rw [envLoop_eq_groups _ _ _ (envizedOpts_values_registered envizeFn p) env [] hgood,
    List.append_nil]

/-- Witness for the amended C4 at a concrete two-variable environment. -/
theorem env_overlay_iteration_order_spec_witness :
    extraArgsFromEnv default_envize_string alphaBetaParser (some "APP")
        [("APP_ALPHA", "1"), ("APP_BETA", "2")]
      = .ok ((([("APP_ALPHA", "1"), ("APP_BETA", "2")] : List (String × String)).filterMap
          (envGroup (envizedOpts default_envize_string alphaBetaParser)
            alphaBetaParser.optionStringActions
            (resolvedPref default_envize_string alphaBetaParser (some "APP")))).reverse.flatten) :=
  env_overlay_iteration_order_spec default_envize_string alphaBetaParser (some "APP")
    [("APP_ALPHA", "1"), ("APP_BETA", "2")] (by decide)

/-- C5: registering the same flag strings for two different fields fails
at registry-build time with a configuration error naming the conflicting
flags, and the whole pipeline then reports exactly that error for every
possible parse input — no parse is ever attempted. -/
theorem duplicate_flag_errors_at_build_time :
    buildParser "app" dupFields
      = .error (.conflictingOptionStrings ["-v", "--verbose"] ["-v", "--verbose"]) ∧
    ∀ (envizeFn : String → String) (envPre : Option String) (includeEnv : Bool)
      (env : List (String × String)) (sysArgvTail : List String)
      (argv : Option (List String)),
      defineThenFromArgs "app" dupFields envizeFn envPre includeEnv env sysArgvTail argv
        = .error (.configError
            (.conflictingOptionStrings ["-v", "--verbose"] ["-v", "--verbose"])) := by
  have hb : buildParser "app" dupFields
      = .error (.conflictingOptionStrings ["-v", "--verbose"] ["-v", "--verbose"]) := by
    decide
  refine ⟨hb, ?_⟩
  intro envizeFn envPre includeEnv env sysArgvTail argv
  unfold defineThenFromArgs
  rw [hb]

/-- C6: the token group emitted for a matched environment variable follows
the resolved action's arity — the flag alone when the arity is zero (a
boolean flag), the flag followed by the variable's value otherwise. -/
theorem env_var_token_group_matches_arity (envizeFn : String → String) (p : Parser)
    (envPre : Option String) (envvar val opt : String) (a : ArgAction)
    (hstart : strStartsWith envvar ((resolvedPref envizeFn p envPre) ++ "_") = true)
    (hval : (val == "") = false)
    (hlook : dlookup (envizedOpts envizeFn p)
      (strDropChars envvar ((resolvedPref envizeFn p envPre).length + 1)) = some opt)
    (hosa : dlookup p.optionStringActions opt = some a) :
    extraArgsFromEnv envizeFn p envPre [(envvar, val)]
      = .ok (if a.nargs = .num 0 then [opt] else [opt, val]) := by
  unfold extraArgsFromEnv
  rw [envLoop, if_neg (by rw [hstart, hval]; decide), hlook]
  show (match dlookup p.optionStringActions opt with
    | none => Except.error (EnvVarError.mk envvar
        (strDropChars envvar ((resolvedPref envizeFn p envPre).length + 1))
        ((envizedOpts envizeFn p).map Prod.fst))
    | some a1 =>
      envLoop (envizedOpts envizeFn p) p.optionStringActions
        (resolvedPref envizeFn p envPre) []
        (([opt] ++ (if a1.nargs.emitsValue then [val] else [])) ++ []))
    = Except.ok (if a.nargs = .num 0 then [opt] else [opt, val])
  rw [hosa]
  show Except.ok (([opt] ++ (if a.nargs.emitsValue then [val] else [])) ++ [])
    = Except.ok (if a.nargs = .num 0 then [opt] else [opt, val])
  rw [List.append_nil]
  rcases Classical.em (a.nargs = Nargs.num 0) with h0 | h0
  · rw [if_pos h0, h0]
    simp [Nargs.emitsValue]
  · rw [if_neg h0]
    have hemit : a.nargs.emitsValue = true := by
      cases hh : a.nargs.emitsValue with
      | false => exact absurd ((emitsValue_false_iff a.nargs).mp hh) h0
      | true => rfl
    rw [hemit]
    simp

/-- Witness for C6: a single-valued flag emits flag and value, a
zero-arity boolean flag emits only the flag. -/
theorem env_var_token_group_matches_arity_witness :
    extraArgsFromEnv default_envize_string countParser (some "APP") [("APP_COUNT", "5")]
      = .ok ["--count", "5"] ∧
    extraArgsFromEnv default_envize_string countVerboseParser (some "APP")
        [("APP_VERBOSE", "1")] = .ok ["--verbose"] := by
  constructor
  · have h := env_var_token_group_matches_arity default_envize_string countParser
      (some "APP") "APP_COUNT" "5" "--count" (countSpec.toAction "count")
      (by decide) (by decide) (by decide) (by decide)
    exact h.trans (by decide)
  · have h := env_var_token_group_matches_arity default_envize_string countVerboseParser
      (some "APP") "APP_VERBOSE" "1" "--verbose" (verboseSpec.toAction "verbose")
      (by decide) (by decide) (by decide) (by decide)
    exact h.trans (by decide)

/-- C10: the decorator-produced `from_args` consults the environment only
when argv is omitted: an explicitly supplied argument list, the empty one
included, is parsed on its own, and no environment mapping, prefix, or
include flag can change the result. -/
theorem explicit_argv_never_consults_env :
    (∀ (envizeFn envizeFn2 : String → String) (p : Parser)
        (envPre envPre2 : Option String) (includeEnv includeEnv2 : Bool)
        (env env2 : List (String × String)) (sysArgvTail sysArgvTail2 : List String)
        (argv : List String),
        fromArgsDecorator envizeFn p envPre includeEnv env sysArgvTail (some argv)
          = fromArgsDecorator envizeFn2 p envPre2 includeEnv2 env2 sysArgvTail2
              (some argv)) ∧
    (∀ (envizeFn : String → String) (p : Parser) (envPre : Option String)
        (includeEnv : Bool) (env : List (String × String)) (sysArgvTail : List String)
        (argv : List String),
        fromArgsDecorator envizeFn p envPre includeEnv env sysArgvTail (some argv)
          = (parseArgsNs p argv).mapError ArgsError.argumentError) ∧
    fromArgsDecorator default_envize_string countParser (some "APP") true
        [("APP_COUNT", "5")] [] (some []) = .ok [("count", Value.vNone)] := by
  refine ⟨?_, ?_, by decide⟩
  · intro envizeFn envizeFn2 p envPre envPre2 includeEnv includeEnv2 env env2 s s2 argv
    rfl
  · intro envizeFn p envPre includeEnv env sysArgvTail argv
    rfl

end DMA
